import Mathlib

/-!
Shallow embedding of `src/tendermint/primitives/src/lib.rs` (the
`sp-consensus-tendermint` primitives crate): the `ConsensusLog` tagged
union with its try-cast accessors and SCALE encoding, the localized
payload construction (`localized_payload`, `localized_payload_with_buffer`),
signature checking (`check_message_signature`,
`check_message_signature_with_buffer`) and signing (`sign_message`).
Byte strings are modelled as `List Nat` (each entry one byte value);
machine `u64` values are `Nat` with explicit reduction modulo `2 ^ 64`
where the fixed-width encoding truncates.  The external Ed25519
capability (keystore signing / public-key verification) is opaque in the
source and is threaded through as explicit function parameters.
-/

/-- A byte string (`Vec<u8>` in the source); each entry is one byte. -/
abbrev Bytes := List Nat

/-- `AuthorityId`: an opaque, comparable public-key identity
(`app::Public` in the source). -/
abbrev AuthorityId := Nat

/-- `AuthoritySignature` (`app::Signature`): a fixed 64-byte Ed25519
signature, modelled as its byte string. -/
abbrev AuthoritySignature := Bytes

/-- `AuthorityIndex = u64`. -/
abbrev AuthorityIndex := Nat

/-- `SetId = u64`. -/
abbrev SetId := Nat

/-- `RoundNumber = u64`. -/
abbrev RoundNumber := Nat

/-- `AuthorityList = Vec<AuthorityId>`. -/
abbrev AuthorityList := List AuthorityId

/-- SCALE fixed-width encoding of a `u64`: 8 bytes, little endian
(the `Encode` impl for `u64` in the `codec` crate). -/
def encodeU64LE (n : Nat) : Bytes :=
  [n % 256, n / 256 % 256, n / 256 ^ 2 % 256, n / 256 ^ 3 % 256,
   n / 256 ^ 4 % 256, n / 256 ^ 5 % 256, n / 256 ^ 6 % 256, n / 256 ^ 7 % 256]

/-- SCALE decoding of a `u64` from the front of a byte stream: consumes
8 little-endian bytes, returns the value and the remaining stream. -/
def decodeU64LE : Bytes → Option (Nat × Bytes)
  | b0 :: b1 :: b2 :: b3 :: b4 :: b5 :: b6 :: b7 :: rest =>
      some (b0 + 256 * b1 + 256 ^ 2 * b2 + 256 ^ 3 * b3 + 256 ^ 4 * b4 +
            256 ^ 5 * b5 + 256 ^ 6 * b6 + 256 ^ 7 * b7, rest)
  | _ => none

/-- `Vec::clear` on the reusable output buffer: empties it. -/
def vecClear (_ : Bytes) : Bytes := []

/-- `Encode::encode_to(buf)`: appends an encoding to the end of a buffer. -/
def encode_to (encoded buf : Bytes) : Bytes := buf ++ encoded

/-- SCALE encoding of the tuple `(message, round, set_id)` (the derived
tuple `Encode` impl): the message's own canonical encoding, then `round`
as a `u64`, then `set_id` as a `u64`, concatenated in that order.
The message is opaque (`E: Encode`), so it is represented directly by
its canonical encoding `msgEnc`. -/
def scaleEncodeTriple (msgEnc : Bytes) (round setId : Nat) : Bytes :=
  msgEnc ++ encodeU64LE round ++ encodeU64LE setId

/-- `localized_payload_with_buffer(round, set_id, message, buf)`:
clears `buf`, then encodes `(message, round, set_id)` into it, and the
final buffer contents are returned (the source mutates `buf` in place). -/
def localized_payload_with_buffer (round setId : Nat) (msgEnc buf : Bytes) :
    Bytes :=
  encode_to (scaleEncodeTriple msgEnc round setId) (vecClear buf)

/-- `localized_payload(round, set_id, message)`: allocates a fresh buffer
and delegates to `localized_payload_with_buffer`. -/
def localized_payload (round setId : Nat) (msgEnc : Bytes) : Bytes :=
  localized_payload_with_buffer round setId msgEnc []

/-- The external per-identity verification operation
(`RuntimeAppPublic::verify`, i.e. `id.verify(&buf, signature)`):
given an identity, message bytes and a signature, decide validity. -/
abbrev VerifyFn := AuthorityId → Bytes → AuthoritySignature → Bool

/-- `check_message_signature_with_buffer`: recomputes the localized
payload into the given buffer and verifies the signature against the
claimed identity.  (The source additionally logs on failure, a
diagnostic side effect with no bearing on the returned Bool.) -/
def check_message_signature_with_buffer (verify : VerifyFn) (msgEnc : Bytes)
    (id : AuthorityId) (signature : AuthoritySignature) (round setId : Nat)
    (buf : Bytes) : Bool :=
  verify id (localized_payload_with_buffer round setId msgEnc buf) signature

/-- `check_message_signature`: delegates to the buffer variant with a
freshly allocated buffer (`&mut Vec::new()`). -/
def check_message_signature (verify : VerifyFn) (msgEnc : Bytes)
    (id : AuthorityId) (signature : AuthoritySignature) (round setId : Nat) :
    Bool :=
  check_message_signature_with_buffer verify msgEnc id signature round setId []

/-- The external keystore capability: `ed25519_sign` is the composite
`keystore.ed25519_sign(AuthorityId::ID, public, payload).ok().flatten()` —
`some raw` when the keystore holds a usable key for the identity and
produced raw signature bytes, `none` otherwise (error or missing key). -/
structure Keystore where
  ed25519_sign : AuthorityId → Bytes → Option Bytes

/-- The `try_into` conversion of the raw keystore signature into the
fixed-size `AuthoritySignature`: succeeds exactly when the raw bytes fit
the expected 64-byte Ed25519 signature encoding. -/
def signatureTryInto (raw : Bytes) : Option AuthoritySignature :=
  if raw.length = 64 then some raw else none

/-- `messages::SignedMessage { message, signature, id }` with the message
represented by its canonical encoding. -/
structure SignedMessage where
  message : Bytes
  signature : AuthoritySignature
  id : AuthorityId
deriving DecidableEq, Repr

/-- `sign_message(keystore, message, public, round, set_id)`: builds the
localized payload, asks the keystore to sign it, converts the raw
signature, and packages the signed message; `none` at either fallible
step (`?` operators in the source). -/
def sign_message (keystore : Keystore) (msgEnc : Bytes) (public : AuthorityId)
    (round setId : Nat) : Option SignedMessage :=
  let encoded := localized_payload round setId msgEnc
  match keystore.ed25519_sign public encoded with
  | none => none
  | some raw =>
    match signatureTryInto raw with
    | none => none
    | some signature => some ⟨msgEnc, signature, public⟩

/-- `ScheduledChange<N>`: the new authority list and the activation
delay in blocks. -/
structure ScheduledChange (N : Type) where
  next_authorities : AuthorityList
  delay : N
deriving DecidableEq, Repr

/-- `ConsensusLog<N>`: the tagged union of Tendermint consensus digest
items (`#[codec(index = i)]` tags 1..5 in declaration order). -/
inductive ConsensusLog (N : Type) where
  | ScheduledChange (change : ScheduledChange N)
  | ForcedChange (median : N) (change : ScheduledChange N)
  | OnDisabled (idx : AuthorityIndex)
  | Pause (delay : N)
  | Resume (delay : N)
deriving DecidableEq, Repr

/-- Root-level alias for the `ScheduledChange` structure, needed inside
the `ConsensusLog` namespace where the plain name resolves to the
equally named constructor. -/
abbrev ScheduledChangeT (N : Type) := ScheduledChange N

namespace ConsensusLog

/-- `try_into_change`: cast as a contained scheduled-change signal. -/
def try_into_change {N : Type} : ConsensusLog N → Option (ScheduledChangeT N)
  | .ScheduledChange change => some change
  | _ => none

/-- `try_into_forced_change`: cast as a contained forced-change signal. -/
def try_into_forced_change {N : Type} :
    ConsensusLog N → Option (N × ScheduledChangeT N)
  | .ForcedChange median change => some (median, change)
  | _ => none

/-- `try_into_pause`: cast as a contained pause signal. -/
def try_into_pause {N : Type} : ConsensusLog N → Option N
  | .Pause delay => some delay
  | _ => none

/-- `try_into_resume`: cast as a contained resume signal. -/
def try_into_resume {N : Type} : ConsensusLog N → Option N
  | .Resume delay => some delay
  | _ => none

end ConsensusLog

/-- The `#[codec(index = i)]` tag byte of each `ConsensusLog` variant. -/
def clTag {N : Type} : ConsensusLog N → Nat
  | .ScheduledChange _ => 1
  | .ForcedChange _ _ => 2
  | .OnDisabled _ => 3
  | .Pause _ => 4
  | .Resume _ => 5

/-- SCALE encoding of `ScheduledChange<N>` (derived `Encode`: fields in
declaration order), parameterized by the encoders of the `AuthorityList`
and `N` fields. -/
def scaleEncodeSC {N : Type} (encA : AuthorityList → Bytes) (encN : N → Bytes)
    (c : ScheduledChange N) : Bytes :=
  encA c.next_authorities ++ encN c.delay

/-- SCALE encoding of `ConsensusLog<N>` (derived `Encode`): the variant's
`#[codec(index = i)]` tag byte, then its fields in order.  The
`AuthorityIndex` field of `OnDisabled` is a `u64` (fixed 8-byte
little-endian); `AuthorityList` and `N` encoders are parameters. -/
def scaleEncodeCL {N : Type} (encA : AuthorityList → Bytes) (encN : N → Bytes) :
    ConsensusLog N → Bytes
  | .ScheduledChange c => 1 :: scaleEncodeSC encA encN c
  | .ForcedChange median c => 2 :: (encN median ++ scaleEncodeSC encA encN c)
  | .OnDisabled i => 3 :: encodeU64LE i
  | .Pause d => 4 :: encN d
  | .Resume d => 5 :: encN d

/-- SCALE decoding of `ScheduledChange<N>` from the front of a stream. -/
def scaleDecodeSC {N : Type} (decA : Bytes → Option (AuthorityList × Bytes))
    (decN : Bytes → Option (N × Bytes)) (b : Bytes) :
    Option (ScheduledChange N × Bytes) :=
  match decA b with
  | none => none
  | some (auths, rest) =>
    match decN rest with
    | none => none
    | some (d, rest2) => some (⟨auths, d⟩, rest2)

/-- SCALE decoding of `ConsensusLog<N>` (derived `Decode`): reads the tag
byte, then the corresponding variant's fields; fails on unknown tags. -/
def scaleDecodeCL {N : Type} (decA : Bytes → Option (AuthorityList × Bytes))
    (decN : Bytes → Option (N × Bytes)) : Bytes → Option (ConsensusLog N × Bytes)
  | 1 :: b =>
    match scaleDecodeSC decA decN b with
    | none => none
    | some (c, rest) => some (.ScheduledChange c, rest)
  | 2 :: b =>
    match decN b with
    | none => none
    | some (median, rest) =>
      match scaleDecodeSC decA decN rest with
      | none => none
      | some (c, rest2) => some (.ForcedChange median c, rest2)
  | 3 :: b =>
    match decodeU64LE b with
    | none => none
    | some (i, rest) => some (.OnDisabled i, rest)
  | 4 :: b =>
    match decN b with
    | none => none
    | some (d, rest) => some (.Pause d, rest)
  | 5 :: b =>
    match decN b with
    | none => none
    | some (d, rest) => some (.Resume d, rest)
  | _ => none

/-- Modelled from the spec: the two activation-point counting domains of
§4.2 (`BlockDistanceKind`) — a scheduled change counts *finalized*
blocks after inclusion, a forced change counts *imported* blocks past
`median_last_finalized`.  The Policy Engine (`observe_block`) itself is
not under `src/`; only its signal type `ConsensusLog` is. -/
inductive PendingKind (N : Type) where
  | finalizedDepth (delay : N)
  | importedDepth (median : N) (delay : N)
deriving DecidableEq, Repr

/-- Modelled from the spec: the `pending_change` record of the Policy
Engine state (§4.2): `{ effective_at: BlockDistanceKind, change }`. -/
structure PendingChange (N : Type) where
  effective_at : PendingKind N
  change : ScheduledChange N
deriving DecidableEq, Repr

/-- Modelled from the spec: the AuthoritySet Policy Engine state (§4.2):
current authorities, current set id, the optional pending change, the
disabled authority indices, and the optional pause delay. -/
structure AuthoritySetState (N : Type) where
  current_authorities : AuthorityList
  current_set_id : SetId
  pending_change : Option (PendingChange N)
  disabled : List AuthorityIndex
  paused_at : Option N
deriving DecidableEq, Repr

/-- Modelled from the spec: `observe_block(digest_signals)` (§4.2, steps
1–6; the Policy Engine is not under `src/`).  The first `ForcedChange`
in digest order unconditionally replaces any pending change, with an
imported-depth activation point; otherwise an existing pending change is
kept and a new `ScheduledChange` is discarded; otherwise the first
`ScheduledChange` is installed with a finalized-depth activation point.
Every `OnDisabled(i)` adds `i` to the disabled set; the first `Pause` is
installed only when none is pending. -/
def observe_block {N : Type} (st : AuthoritySetState N)
    (signals : List (ConsensusLog N)) : AuthoritySetState N :=
  let firstForced := signals.findSome? ConsensusLog.try_into_forced_change
  let firstScheduled := signals.findSome? ConsensusLog.try_into_change
  let pending :=
    match firstForced with
    | some (median, change) =>
        some ⟨PendingKind.importedDepth median change.delay, change⟩
    | none =>
      match st.pending_change with
      | some p => some p
      | none =>
        match firstScheduled with
        | some change => some ⟨PendingKind.finalizedDepth change.delay, change⟩
        | none => none
  let newlyDisabled := signals.filterMap fun l =>
    match l with
    | .OnDisabled i => some i
    | _ => none
  let paused :=
    match st.paused_at with
    | some d => some d
    | none => signals.findSome? ConsensusLog.try_into_pause
  { st with
      pending_change := pending
      disabled := st.disabled ++ newlyDisabled
      paused_at := paused }

/-! ### Helper lemmas about the fixed-width `u64` encoding -/

/-- Decoding the front of a stream that starts with an encoded `u64`
recovers the value modulo `2 ^ 64` and the remaining stream. -/
theorem decodeU64LE_encodeU64LE (n : Nat) (rest : Bytes) :
    decodeU64LE (encodeU64LE n ++ rest) = some (n % 2 ^ 64, rest) := by
  simp only [encodeU64LE, List.cons_append, List.nil_append, decodeU64LE,
    Option.some.injEq, Prod.mk.injEq, and_true]
  omega

/-- The `u64` encoding is always exactly 8 bytes. -/
theorem encodeU64LE_length (n : Nat) : (encodeU64LE n).length = 8 := rfl

/-- The `u64` encoding is injective on values representable in 64 bits. -/
theorem encodeU64LE_inj {a b : Nat} (ha : a < 2 ^ 64) (hb : b < 2 ^ 64)
    (h : encodeU64LE a = encodeU64LE b) : a = b := by
  have := decodeU64LE_encodeU64LE a []
  rw [h, decodeU64LE_encodeU64LE b []] at this
  simp only [Option.some.injEq, Prod.mk.injEq, and_true] at this
  omega

/-- The localized payload determines the message encoding (round and set
id held fixed). -/
theorem localized_payload_msg_inj {r s : Nat} {m1 m2 : Bytes}
    (h : localized_payload r s m1 = localized_payload r s m2) : m1 = m2 := by
  simp only [localized_payload, localized_payload_with_buffer, encode_to,
    vecClear, scaleEncodeTriple, List.nil_append, List.append_assoc] at h
  exact List.append_cancel_right h

/-- The localized payload determines the round and set id (message held
fixed, both values representable in 64 bits). -/
theorem localized_payload_round_set_inj {m : Bytes} {r1 s1 r2 s2 : Nat}
    (hr1 : r1 < 2 ^ 64) (hs1 : s1 < 2 ^ 64) (hr2 : r2 < 2 ^ 64)
    (hs2 : s2 < 2 ^ 64)
    (h : localized_payload r1 s1 m = localized_payload r2 s2 m) :
    r1 = r2 ∧ s1 = s2 := by
  simp only [localized_payload, localized_payload_with_buffer, encode_to,
    vecClear, scaleEncodeTriple, List.nil_append, List.append_assoc] at h
  have h2 := List.append_cancel_left h
  have hlen : (encodeU64LE r1).length = (encodeU64LE r2).length := by
    simp [encodeU64LE_length]
  obtain ⟨hr, hs⟩ := List.append_inj h2 hlen
  exact ⟨encodeU64LE_inj hr1 hr2 hr, encodeU64LE_inj hs1 hs2 hs⟩

/-! ### Claim theorems -/

/-- C1: for every message, round and set id, `localized_payload` and
`localized_payload_with_buffer` produce exactly the message's canonical
encoding, followed by the round as a fixed 8-byte integer, followed by
the set id as a fixed 8-byte integer. -/
theorem localized_payload_is_ordered_triple (round setId : Nat)
    (msgEnc buf : Bytes) :
    localized_payload round setId msgEnc =
      msgEnc ++ encodeU64LE round ++ encodeU64LE setId ∧
    localized_payload_with_buffer round setId msgEnc buf =
      msgEnc ++ encodeU64LE round ++ encodeU64LE setId ∧
    (encodeU64LE round).length = 8 ∧ (encodeU64LE setId).length = 8 :=
  ⟨rfl, rfl, rfl, rfl⟩

/-- C4: the buffer-reuse variants are observably equivalent to the
allocating variants: for any prior buffer content, the buffer after
`localized_payload_with_buffer` equals the freshly-allocated result of
`localized_payload`, and `check_message_signature_with_buffer` returns
the same boolean as `check_message_signature`. -/
theorem buffer_variants_equivalent (verify : VerifyFn) (msgEnc : Bytes)
    (id : AuthorityId) (signature : AuthoritySignature) (round setId : Nat)
    (buf : Bytes) :
    localized_payload_with_buffer round setId msgEnc buf =
      localized_payload round setId msgEnc ∧
    check_message_signature_with_buffer verify msgEnc id signature round setId
        buf =
      check_message_signature verify msgEnc id signature round setId :=
  ⟨rfl, rfl⟩

/-- C6: `check_message_signature` is a total boolean function: on every
input it returns exactly the external verifier's boolean verdict on the
recomputed localized payload, and it returns `false` precisely when that
verdict is negative — a failed verification is the value `false`, not an
error outcome. -/
theorem check_message_signature_total_boolean (verify : VerifyFn)
    (msgEnc : Bytes) (id : AuthorityId) (signature : AuthoritySignature)
    (round setId : Nat) :
    check_message_signature verify msgEnc id signature round setId =
      verify id (localized_payload round setId msgEnc) signature ∧
    (check_message_signature verify msgEnc id signature round setId = false ↔
      verify id (localized_payload round setId msgEnc) signature = false) :=
  ⟨rfl, Iff.rfl⟩

/-- C10: for a fixed message, the localized payload determines the round
and the set id: equal payloads force equal rounds and equal set ids
(values representable as `u64`), because round and set id occupy a
fixed-width 16-byte suffix of the payload. -/
theorem localized_payload_binds_round_and_set (msgEnc : Bytes)
    (r1 s1 r2 s2 : Nat) (hr1 : r1 < 2 ^ 64) (hs1 : s1 < 2 ^ 64)
    (hr2 : r2 < 2 ^ 64) (hs2 : s2 < 2 ^ 64)
    (h : localized_payload r1 s1 msgEnc = localized_payload r2 s2 msgEnc) :
    r1 = r2 ∧ s1 = s2 :=
  localized_payload_round_set_inj hr1 hs1 hr2 hs2 h

/-- Witness for C10 at a concrete input. -/
theorem localized_payload_binds_round_and_set_witness :
    (1 : Nat) < 2 ^ 64 ∧ (2 : Nat) < 2 ^ 64 ∧
    localized_payload 1 2 [5] = localized_payload 1 2 [5] ∧
    ((1 : Nat) = 1 ∧ (2 : Nat) = 2) :=
  ⟨by norm_num, by norm_num, rfl,
    localized_payload_binds_round_and_set [5] 1 2 1 2 (by norm_num)
      (by norm_num) (by norm_num) (by norm_num) rfl⟩

/-- C2: sign followed by verify with the same round and set id accepts:
if the keystore's key for `id` produces signatures that `id`'s public
verification accepts (the key belongs to `id`), then
`check_message_signature` on the output of `sign_message` returns
`true`, and the signed message carries the original message and id. -/
theorem sign_then_verify_roundtrip (verify : VerifyFn) (ks : Keystore)
    (msgEnc : Bytes) (id : AuthorityId) (round setId : Nat)
    (sm : SignedMessage)
    (hkey : ∀ payload sig raw, ks.ed25519_sign id payload = some raw →
      signatureTryInto raw = some sig → verify id payload sig = true)
    (hsign : sign_message ks msgEnc id round setId = some sm) :
    check_message_signature verify msgEnc sm.id sm.signature round setId =
      true ∧
    sm.id = id ∧ sm.message = msgEnc := by
  simp only [sign_message] at hsign
  cases h1 : ks.ed25519_sign id (localized_payload round setId msgEnc) with
  | none => rw [h1] at hsign; exact absurd hsign (by simp)
  | some raw =>
    rw [h1] at hsign
    dsimp only at hsign
    cases h2 : signatureTryInto raw with
    | none => rw [h2] at hsign; exact absurd hsign (by simp)
    | some sig =>
      rw [h2] at hsign
      dsimp only at hsign
      simp only [Option.some.injEq] at hsign
      subst hsign
      exact ⟨hkey _ _ _ h1 h2, rfl, rfl⟩

/-- Concrete keystore for witnesses: signs everything with 64 zero
bytes. -/
def ksW : Keystore := ⟨fun _ _ => some (List.replicate 64 0)⟩

/-- Concrete always-accepting verifier for the round-trip witness. -/
def verifyW : VerifyFn := fun _ _ _ => true

/-- Concrete signed message produced by `ksW` at the witness input. -/
def smW : SignedMessage := ⟨[7], List.replicate 64 0, 3⟩

/-- Witness for C2 at a concrete input. -/
theorem sign_then_verify_roundtrip_witness :
    (∀ payload sig raw, ksW.ed25519_sign 3 payload = some raw →
      signatureTryInto raw = some sig → verifyW 3 payload sig = true) ∧
    sign_message ksW [7] 3 5 6 = some smW ∧
    (check_message_signature verifyW [7] smW.id smW.signature 5 6 = true ∧
      smW.id = 3 ∧ smW.message = [7]) :=
  ⟨fun _ _ _ _ _ => rfl, rfl,
    sign_then_verify_roundtrip verifyW ksW [7] 3 5 6 smW
      (fun _ _ _ _ _ => rfl) rfl⟩

/-- C7: `sign_message` equals the keystore signing step composed with the
fixed-size signature conversion and the packaging of
`{message, signature, id}`; it returns `none` exactly when the keystore
holds no usable result for the identity or the raw signature does not
fit the 64-byte fixed-size encoding. -/
theorem sign_message_none_characterization (ks : Keystore) (msgEnc : Bytes)
    (public : AuthorityId) (round setId : Nat) :
    sign_message ks msgEnc public round setId =
      (ks.ed25519_sign public (localized_payload round setId msgEnc)).bind
        (fun raw => (signatureTryInto raw).map
          (fun signature => ⟨msgEnc, signature, public⟩)) ∧
    (sign_message ks msgEnc public round setId = none ↔
      ks.ed25519_sign public (localized_payload round setId msgEnc) = none ∨
      (∃ raw,
        ks.ed25519_sign public (localized_payload round setId msgEnc) =
          some raw ∧
        signatureTryInto raw = none ∧ raw.length ≠ 64)) ∧
    (∀ raw, signatureTryInto raw = none ↔ raw.length ≠ 64) := by
  have hmain : sign_message ks msgEnc public round setId =
      (ks.ed25519_sign public (localized_payload round setId msgEnc)).bind
        (fun raw => (signatureTryInto raw).map
          (fun signature => ⟨msgEnc, signature, public⟩)) := by
    simp only [sign_message]
    cases h1 : ks.ed25519_sign public (localized_payload round setId msgEnc)
      with
    | none => rfl
    | some raw =>
      cases h2 : signatureTryInto raw with
      | none => simp [h2]
      | some sig => simp [h2]
  refine ⟨hmain, ?_, fun raw => by simp [signatureTryInto]⟩
  rw [hmain]
  cases h1 : ks.ed25519_sign public (localized_payload round setId msgEnc) with
  | none => simp
  | some raw =>
    by_cases hl : raw.length = 64 <;> simp [signatureTryInto, hl]

/-- C5: mutation sensitivity.  For a signed message produced by
`sign_message`, under an idealized unforgeable verifier whose only
accepting triple is the claimed identity, the original localized payload
and the produced signature, changing exactly one of message bytes,
round, set id, signature bytes, or claimed identity (the u64 fields
staying representable) makes `check_message_signature` return `false`. -/
theorem check_message_signature_mutation_sensitive (verify : VerifyFn)
    (ks : Keystore) (msgEnc : Bytes) (id : AuthorityId) (round setId : Nat)
    (sm : SignedMessage) (msgEnc2 : Bytes) (round2 setId2 : Nat)
    (sig2 : AuthoritySignature) (id2 : AuthorityId)
    (hround : round < 2 ^ 64) (hset : setId < 2 ^ 64)
    (hround2 : round2 < 2 ^ 64) (hset2 : setId2 < 2 ^ 64)
    (hsign : sign_message ks msgEnc id round setId = some sm)
    (hverify : ∀ i p s, verify i p s = true ↔
      i = id ∧ p = localized_payload round setId msgEnc ∧ s = sm.signature)
    (hm : msgEnc2 ≠ msgEnc) (hr : round2 ≠ round) (hs : setId2 ≠ setId)
    (hg : sig2 ≠ sm.signature) (hi : id2 ≠ id) :
    check_message_signature verify msgEnc2 id sm.signature round setId =
      false ∧
    check_message_signature verify msgEnc id sm.signature round2 setId =
      false ∧
    check_message_signature verify msgEnc id sm.signature round setId2 =
      false ∧
    check_message_signature verify msgEnc id sig2 round setId = false ∧
    check_message_signature verify msgEnc id2 sm.signature round setId =
      false := by
  have hc : ∀ m i s r sid,
      check_message_signature verify m i s r sid =
        verify i (localized_payload r sid m) s := fun _ _ _ _ _ => rfl
  refine ⟨?_, ?_, ?_, ?_, ?_⟩ <;> rw [hc, Bool.eq_false_iff] <;> intro htrue
  · obtain ⟨-, hp, -⟩ := (hverify _ _ _).mp htrue
    exact hm (localized_payload_msg_inj hp)
  · obtain ⟨-, hp, -⟩ := (hverify _ _ _).mp htrue
    exact hr (localized_payload_round_set_inj hround2 hset hround hset hp).1
  · obtain ⟨-, hp, -⟩ := (hverify _ _ _).mp htrue
    exact hs (localized_payload_round_set_inj hround hset2 hround hset hp).2
  · obtain ⟨-, -, hq⟩ := (hverify _ _ _).mp htrue
    exact hg hq
  · obtain ⟨hq, -, -⟩ := (hverify _ _ _).mp htrue
    exact hi hq

/-- Concrete verifier for the mutation-sensitivity witness: accepts
exactly the original triple. -/
def verifyOnlyW : VerifyFn := fun i p s =>
  decide (i = 3 ∧ p = localized_payload 5 6 [7] ∧ s = smW.signature)

/-- Witness for C5 at a concrete input: one mutation per field flips the
check to `false`. -/
theorem check_message_signature_mutation_sensitive_witness :
    sign_message ksW [7] 3 5 6 = some smW ∧
    check_message_signature verifyOnlyW [8] 3 smW.signature 5 6 = false ∧
    check_message_signature verifyOnlyW [7] 3 smW.signature 4 6 = false ∧
    check_message_signature verifyOnlyW [7] 3 smW.signature 5 7 = false ∧
    check_message_signature verifyOnlyW [7] 3 [] 5 6 = false ∧
    check_message_signature verifyOnlyW [7] 4 smW.signature 5 6 = false := by
  have h := check_message_signature_mutation_sensitive verifyOnlyW ksW [7] 3
    5 6 smW [8] 4 7 [] 4 (by norm_num) (by norm_num) (by norm_num)
    (by norm_num) rfl
    (fun i p s => by simp [verifyOnlyW])
    (by decide) (by decide) (by decide) (by decide) (by decide)
  exact ⟨rfl, h.1, h.2.1, h.2.2.1, h.2.2.2.1, h.2.2.2.2⟩

/-- C9: each try-cast accessor returns `some` of the contained payload
exactly when the value is the corresponding variant, and `none`
otherwise; at most one of the four accessors returns `some` for any
given value. -/
theorem try_into_accessors_characterize {N : Type} (cl : ConsensusLog N) :
    (∀ c, cl.try_into_change = some c ↔ cl = .ScheduledChange c) ∧
    (∀ m c, cl.try_into_forced_change = some (m, c) ↔
      cl = .ForcedChange m c) ∧
    (∀ d, cl.try_into_pause = some d ↔ cl = .Pause d) ∧
    (∀ d, cl.try_into_resume = some d ↔ cl = .Resume d) ∧
    cl.try_into_change.isSome.toNat + cl.try_into_forced_change.isSome.toNat +
      cl.try_into_pause.isSome.toNat + cl.try_into_resume.isSome.toNat ≤ 1 :=
  by
  cases cl <;>
    simp [ConsensusLog.try_into_change, ConsensusLog.try_into_forced_change,
      ConsensusLog.try_into_pause, ConsensusLog.try_into_resume, eq_comm,
      Prod.ext_iff]

/-- C8: each `ConsensusLog` variant encodes as its integer tag
(1 ScheduledChange, 2 ForcedChange, 3 OnDisabled, 4 Pause, 5 Resume)
followed by its fields' canonical encodings, and decoding a tag-prefixed
encoding recovers the variant: for any field codecs that round-trip
(and a 64-bit representable `OnDisabled` index), the first byte of the
encoding is the variant's tag and decoding the encoding followed by any
remaining stream returns exactly the original value and the stream. -/
theorem consensus_log_codec_roundtrip {N : Type}
    (encA : AuthorityList → Bytes)
    (decA : Bytes → Option (AuthorityList × Bytes))
    (encN : N → Bytes) (decN : Bytes → Option (N × Bytes))
    (hA : ∀ l rest, decA (encA l ++ rest) = some (l, rest))
    (hN : ∀ n rest, decN (encN n ++ rest) = some (n, rest))
    (cl : ConsensusLog N) (rest : Bytes)
    (hidx : ∀ i, cl = .OnDisabled i → i < 2 ^ 64) :
    (scaleEncodeCL encA encN cl).head? = some (clTag cl) ∧
    scaleDecodeCL decA decN (scaleEncodeCL encA encN cl ++ rest) =
      some (cl, rest) := by
  cases cl with
  | ScheduledChange c =>
    refine ⟨rfl, ?_⟩
    simp [scaleEncodeCL, scaleDecodeCL, scaleEncodeSC, scaleDecodeSC,
      List.append_assoc, hA, hN]
  | ForcedChange median c =>
    refine ⟨rfl, ?_⟩
    simp [scaleEncodeCL, scaleDecodeCL, scaleEncodeSC, scaleDecodeSC,
      List.append_assoc, hA, hN]
  | OnDisabled i =>
    refine ⟨rfl, ?_⟩
    have hi : i < 2 ^ 64 := hidx i rfl
    simp [scaleEncodeCL, scaleDecodeCL, decodeU64LE_encodeU64LE,
      Nat.mod_eq_of_lt hi]
    exact hi
  | Pause d =>
    refine ⟨rfl, ?_⟩
    simp [scaleEncodeCL, scaleDecodeCL, hN]
  | Resume d =>
    refine ⟨rfl, ?_⟩
    simp [scaleEncodeCL, scaleDecodeCL, hN]

/-- Concrete authority-list codec for the C8 witness: one entry holding
the `Encodable` code of the list. -/
def encAW (l : AuthorityList) : Bytes := [Encodable.encode l]

/-- Concrete authority-list decoder matching `encAW`. -/
def decAW : Bytes → Option (AuthorityList × Bytes)
  | x :: rest =>
    match (Encodable.decode x : Option AuthorityList) with
    | some l => some (l, rest)
    | none => none
  | [] => none

/-- Concrete `N = Nat` field codec for the C8 witness: a single entry. -/
def encNW (n : Nat) : Bytes := [n]

/-- Concrete `N = Nat` field decoder matching `encNW`. -/
def decNW : Bytes → Option (Nat × Bytes)
  | x :: rest => some (x, rest)
  | [] => none

/-- Concrete `ConsensusLog` value for the C8 witness. -/
def clW : ConsensusLog Nat := .ForcedChange 7 ⟨[1, 2], 4⟩

/-- Witness for C8 at a concrete input. -/
theorem consensus_log_codec_roundtrip_witness :
    (scaleEncodeCL encAW encNW clW).head? = some (clTag clW) ∧
    scaleDecodeCL decAW decNW (scaleEncodeCL encAW encNW clW ++ [9]) =
      some (clW, [9]) :=
  consensus_log_codec_roundtrip encAW decAW encNW decNW
    (fun l rest => by simp [encAW, decAW, Encodable.encodek])
    (fun n rest => rfl) clW [9]
    (fun i h => ConsensusLog.noConfusion h)

/-- If some list element maps to `some`, `findSome?` finds a value. -/
theorem findSome?_isSome_of_mem {α β : Type} {f : α → Option β} {l : List α}
    {a : α} {b : β} (ha : a ∈ l) (hb : f a = some b) :
    (l.findSome? f).isSome = true := by
  induction l with
  | nil => cases ha
  | cons x xs ih =>
    rw [List.findSome?_cons]
    cases hx : f x with
    | some y => rfl
    | none =>
      cases ha with
      | head => rw [hx] at hb; cases hb
      | tail _ hmem => exact ih hmem

/-- `findSome?` only returns values produced by a list element. -/
theorem exists_mem_of_findSome?_eq_some {α β : Type} {f : α → Option β}
    {l : List α} {b : β} (h : l.findSome? f = some b) :
    ∃ a, a ∈ l ∧ f a = some b := by
  induction l with
  | nil => cases h
  | cons x xs ih =>
    rw [List.findSome?_cons] at h
    cases hx : f x with
    | some y =>
      rw [hx] at h
      dsimp only at h
      exact ⟨x, List.mem_cons_self x xs, by rw [hx]; exact h⟩
    | none =>
      rw [hx] at h
      dsimp only at h
      obtain ⟨a, hmem, hfa⟩ := ih h
      exact ⟨a, List.mem_cons_of_mem x hmem, hfa⟩

/-- C3: forced-change precedence.  If the block's digest-signal sequence
contains both a `ForcedChange` and a `ScheduledChange`, then after
`observe_block` the pending change is the first `ForcedChange`'s (with
imported-depth activation), whatever the prior state and whatever the
relative order of the two signals in the sequence. -/
theorem observe_block_forced_precedence {N : Type}
    (st : AuthoritySetState N) (signals : List (ConsensusLog N)) (m : N)
    (c c2 : ScheduledChange N)
    (hf : ConsensusLog.ForcedChange m c ∈ signals)
    (hs : ConsensusLog.ScheduledChange c2 ∈ signals) :
    (observe_block st signals).pending_change =
      (signals.findSome? ConsensusLog.try_into_forced_change).map
        (fun mc => ⟨PendingKind.importedDepth mc.1 mc.2.delay, mc.2⟩) ∧
    (signals.findSome? ConsensusLog.try_into_forced_change).isSome = true ∧
    ∀ mc, signals.findSome? ConsensusLog.try_into_forced_change = some mc →
      ConsensusLog.ForcedChange mc.1 mc.2 ∈ signals := by
  have hsome : (signals.findSome? ConsensusLog.try_into_forced_change).isSome
      = true :=
    findSome?_isSome_of_mem hf (by rfl)
  refine ⟨?_, hsome, ?_⟩
  · obtain ⟨mc, hmc⟩ := Option.isSome_iff_exists.mp hsome
    rw [hmc]
    simp only [observe_block, hmc, Option.map_some']
  · intro mc hmc
    obtain ⟨a, hmem, hfa⟩ := exists_mem_of_findSome?_eq_some hmc
    cases a with
    | ForcedChange m0 c0 =>
      simp only [ConsensusLog.try_into_forced_change, Option.some.injEq]
        at hfa
      rw [← hfa]
      exact hmem
    | ScheduledChange _ => cases hfa
    | OnDisabled _ => cases hfa
    | Pause _ => cases hfa
    | Resume _ => cases hfa

/-- Concrete prior state for the C3 witness. -/
def stW : AuthoritySetState Nat := ⟨[1], 0, none, [], none⟩

/-- Concrete digest-signal sequence for the C3 witness, with the
scheduled change listed before the forced change. -/
def signalsW : List (ConsensusLog Nat) :=
  [.ScheduledChange ⟨[9], 5⟩, .ForcedChange 7 ⟨[8], 2⟩]

/-- Witness for C3 at a concrete input. -/
theorem observe_block_forced_precedence_witness :
    ConsensusLog.ForcedChange 7 ⟨[8], 2⟩ ∈ signalsW ∧
    ConsensusLog.ScheduledChange ⟨[9], 5⟩ ∈ signalsW ∧
    (observe_block stW signalsW).pending_change =
      (signalsW.findSome? ConsensusLog.try_into_forced_change).map
        (fun mc => ⟨PendingKind.importedDepth mc.1 mc.2.delay, mc.2⟩) ∧
    (signalsW.findSome? ConsensusLog.try_into_forced_change).isSome = true :=
  ⟨by decide, by decide,
    (observe_block_forced_precedence stW signalsW 7 ⟨[8], 2⟩ ⟨[9], 5⟩
      (by decide) (by decide)).1,
    (observe_block_forced_precedence stW signalsW 7 ⟨[8], 2⟩ ⟨[9], 5⟩
      (by decide) (by decide)).2.1⟩
